import Mathlib

/-!
Shallow embedding of the in-memory accounts index bin
(runtime/src/in_mem_accounts_index.rs) and of the storage lifecycle
manager (runtime/src/accounts_index_storage.rs).

Modelling conventions:
* Fatal conditions in the Rust source (a failing assert, an unwrap on a
  panicking join, a Vec remove at an out-of-range index) are modelled by
  Option: a result of none is an aborted (panicked) execution.
* The generic account-version payload T with its IsCached trait is
  modelled by an explicit function isCached from T to Bool.
* Arc sharing and interior mutability are modelled by explicit state
  passing: operations return the updated structures.
-/

/-- Ledger slot ordinal, a totally ordered position in the ledger. -/
abbrev Slot := Nat

/-- Account key; the Rust Pubkey is a fixed-size hashable identifier,
modelled by a natural number. -/
abbrev AccountKey := Nat

/-- A slot list: pairs of slot and account-version payload, as in the
Rust type SlotList of T. -/
abbrev SlotList (T : Type) := List (Slot × T)

/-- Embedding of update_slot_list from in_mem_accounts_index.rs.
The source scans the list by index for the first entry whose slot equals
the incoming slot; here the scan is structural recursion on the list.
On a match it swaps the incoming pair into that position, asserts the
caller flag against the observed cached state, pushes the displaced pair
to the reclaim list when the flag is false, and asserts that no later
entry shares the slot; both asserts abort (none).  If no entry matches,
the incoming pair is appended.  The returned Bool is addref. -/
def update_slot_list {T : Type} (isCached : T → Bool) :
    SlotList T → Slot → T → SlotList T → Bool →
    Option (SlotList T × SlotList T × Bool)
  | [], slot, account_info, reclaims, _ =>
      some ([(slot, account_info)], reclaims, !isCached account_info)
  | (s, previous_update_value) :: rest, slot, account_info, reclaims,
      previous_slot_entry_was_cached =>
      if s = slot then
        let previous_was_cached := isCached previous_update_value
        let addref := !isCached account_info && previous_was_cached
        if previous_slot_entry_was_cached && !previous_was_cached then
          none
        else if rest.any (fun item => item.1 == slot) then
          none
        else
          some ((slot, account_info) :: rest,
            if previous_slot_entry_was_cached then reclaims
            else reclaims ++ [(s, previous_update_value)],
            addref)
      else
        match update_slot_list isCached rest slot account_info reclaims
            previous_slot_entry_was_cached with
        | none => none
        | some (l, r, a) => some ((s, previous_update_value) :: l, r, a)

/-- Concrete account-version payload for concrete evaluations: a cached
flag plus an identifying tag. -/
structure Ver where
  cached : Bool
  tag : Nat
deriving DecidableEq

/-- The IsCached capability of the concrete payload. -/
def Ver.isC (v : Ver) : Bool := v.cached

/-- Helper: when no existing entry carries the incoming slot, the scan
falls through and the incoming pair is appended, with the reclaim list
and the initial addref value untouched. -/
theorem update_slot_list_of_slot_not_mem {T : Type} (isCached : T → Bool)
    (list : SlotList T) (slot : Slot) (info : T) (reclaims : SlotList T)
    (flag : Bool) (h : ∀ p ∈ list, p.1 ≠ slot) :
    update_slot_list isCached list slot info reclaims flag =
      some (list ++ [(slot, info)], reclaims, !isCached info) := by
  induction list with
  | nil => rfl
  | cons hd tl ih =>
      obtain ⟨s, v⟩ := hd
      have hs : s ≠ slot := h (s, v) (List.mem_cons_self _ _)
      have htl : ∀ p ∈ tl, p.1 ≠ slot := fun p hp =>
        h p (List.mem_cons_of_mem _ hp)
      simp only [update_slot_list, if_neg hs, ih htl, List.cons_append]

/-- Helper: whenever update_slot_list returns (does not abort), the
returned addref equals: incoming version non-cached, and every entry of
the original list at the incoming slot was cached. -/
theorem update_slot_list_addref_eq {T : Type} (isCached : T → Bool)
    (list : SlotList T) (slot : Slot) (info : T) (reclaims : SlotList T)
    (flag : Bool) :
    ∀ l r a,
      update_slot_list isCached list slot info reclaims flag =
        some (l, r, a) →
      a = (!isCached info &&
        list.all (fun p => !(p.1 == slot) || isCached p.2)) := by
  induction list with
  | nil =>
      intro l r a h
      simp only [update_slot_list, Option.some.injEq, Prod.mk.injEq] at h
      rw [← h.2.2]; simp
  | cons hd tl ih =>
      intro l r a h
      obtain ⟨s, v⟩ := hd
      by_cases hs : s = slot
      · subst hs
        simp only [update_slot_list, eq_self_iff_true, if_true,
          if_pos rfl] at h
        by_cases h1 : (flag && !isCached v) = true
        · rw [if_pos h1] at h
          exact absurd h (by simp)
        · rw [if_neg h1] at h
          by_cases h2 : (tl.any fun item => item.1 == s) = true
          · rw [if_pos h2] at h
            exact absurd h (by simp)
          · rw [if_neg h2] at h
            simp only [Option.some.injEq, Prod.mk.injEq] at h
            obtain ⟨hl, hr, ha⟩ := h
            have htl : tl.all (fun p => !(p.1 == s) || isCached p.2) =
                true := by
              rw [List.all_eq_true]
              intro p hp
              have hps : (p.1 == s) = false := by
                by_contra hc
                exact h2 (List.any_eq_true.mpr
                  ⟨p, hp, by simpa using hc⟩)
              simp [hps]
            rw [← ha]
            simp [List.all_cons, htl]
      · simp only [update_slot_list, if_neg hs] at h
        rcases hu : update_slot_list isCached tl slot info reclaims flag
          with _ | ⟨l0, r0, a0⟩
        · rw [hu] at h
          exact absurd h (by simp)
        · rw [hu] at h
          simp only [Option.some.injEq, Prod.mk.injEq] at h
          obtain ⟨hl, hr, ha⟩ := h
          have hbeq : (s == slot) = false := by simpa using hs
          have hrec := ih l0 r0 a0 hu
          rw [← ha, hrec]
          simp [List.all_cons, hbeq]

/-- Unfolding helper: the head of the list carries the incoming slot. -/
theorem update_slot_list_cons_self {T : Type} (isCached : T → Bool)
    (s : Slot) (v info : T) (tl : SlotList T) (reclaims : SlotList T)
    (flag : Bool) :
    update_slot_list isCached ((s, v) :: tl) s info reclaims flag =
      if (flag && !isCached v) = true then none
      else if (tl.any fun item => item.1 == s) = true then none
      else
        some ((s, info) :: tl,
          if flag then reclaims else reclaims ++ [(s, v)],
          !isCached info && isCached v) := by
  simp only [update_slot_list, eq_self_iff_true, if_true, if_pos rfl]

/-- Unfolding helper: the head of the list does not carry the incoming
slot, so the scan recurses into the tail. -/
theorem update_slot_list_cons_ne {T : Type} (isCached : T → Bool)
    {s slot : Slot} (hs : s ≠ slot) (v info : T) (tl : SlotList T)
    (reclaims : SlotList T) (flag : Bool) :
    update_slot_list isCached ((s, v) :: tl) slot info reclaims flag =
      match update_slot_list isCached tl slot info reclaims flag with
      | none => none
      | some (l, r, a) => some ((s, v) :: l, r, a) := by
  simp only [update_slot_list, if_neg hs]

/-- Helper: every slot present in a successful result was the incoming
slot or was already present in the original list. -/
theorem update_slot_list_slot_mem {T : Type} (isCached : T → Bool)
    (list : SlotList T) (slot : Slot) (info : T) (reclaims : SlotList T)
    (flag : Bool) :
    ∀ l r a,
      update_slot_list isCached list slot info reclaims flag =
        some (l, r, a) →
      ∀ x ∈ l.map Prod.fst, x = slot ∨ x ∈ list.map Prod.fst := by
  induction list with
  | nil =>
      intro l r a h x hx
      simp only [update_slot_list, Option.some.injEq, Prod.mk.injEq] at h
      rw [← h.1] at hx
      simp at hx
      exact Or.inl hx
  | cons hd tl ih =>
      intro l r a h x hx
      obtain ⟨s, v⟩ := hd
      by_cases hs : s = slot
      · subst hs
        rw [update_slot_list_cons_self] at h
        by_cases h1 : (flag && !isCached v) = true
        · rw [if_pos h1] at h
          exact absurd h (by simp)
        · rw [if_neg h1] at h
          by_cases h2 : (tl.any fun item => item.1 == s) = true
          · rw [if_pos h2] at h
            exact absurd h (by simp)
          · rw [if_neg h2] at h
            simp only [Option.some.injEq, Prod.mk.injEq] at h
            rw [← h.1] at hx
            simp only [List.map_cons, List.mem_cons] at hx ⊢
            rcases hx with hx | hx
            · exact Or.inl hx
            · exact Or.inr (Or.inr hx)
      · rw [update_slot_list_cons_ne isCached hs] at h
        rcases hu : update_slot_list isCached tl slot info reclaims flag
          with _ | ⟨l0, r0, a0⟩
        · rw [hu] at h
          exact absurd h (by simp)
        · rw [hu] at h
          simp only [Option.some.injEq, Prod.mk.injEq] at h
          rw [← h.1] at hx
          simp only [List.map_cons, List.mem_cons] at hx ⊢
          rcases hx with hx | hx
          · exact Or.inr (Or.inl hx)
          · rcases ih l0 r0 a0 hu x (by simpa using hx) with h' | h'
            · exact Or.inl h'
            · exact Or.inr (Or.inr h')

/-- C1: for every slot list, incoming pair, reclaim list and flag, when
update_slot_list returns, the returned addref is true if and only if the
incoming version is non-cached and either no existing entry has the
incoming slot or every existing entry at that slot holds a cached
version (the matched entry is unique among entries at that slot whenever
the call returns rather than aborting). -/
theorem update_slot_list_addref_iff {T : Type} (isCached : T → Bool)
    (list : SlotList T) (slot : Slot) (info : T) (reclaims : SlotList T)
    (flag : Bool) (l r : SlotList T) (a : Bool)
    (h : update_slot_list isCached list slot info reclaims flag =
      some (l, r, a)) :
    a = true ↔
      (isCached info = false ∧
        ∀ p ∈ list, p.1 = slot → isCached p.2 = true) := by
  rw [update_slot_list_addref_eq isCached list slot info reclaims flag
    l r a h]
  clear h
  simp only [Bool.and_eq_true, Bool.not_eq_true', List.all_eq_true,
    Bool.or_eq_true, beq_iff_eq]
  constructor
  · rintro ⟨h1, h2⟩
    refine ⟨h1, fun p hp hps => ?_⟩
    rcases h2 p hp with hne | hc
    · exact absurd hps (by simpa using hne)
    · exact hc
  · rintro ⟨h1, h2⟩
    refine ⟨h1, fun p hp => ?_⟩
    by_cases hps : p.1 = slot
    · exact Or.inr (h2 p hp hps)
    · exact Or.inl (by simpa using hps)

/-- Witness for C1 at a concrete input: replacing a cached version by a
non-cached one at slot 5 returns addref true. -/
theorem update_slot_list_addref_iff_witness :
    update_slot_list Ver.isC [(5, Ver.mk true 0)] 5 (Ver.mk false 1) []
        true = some ([(5, Ver.mk false 1)], [], true) ∧
      (true = true ↔
        (Ver.isC (Ver.mk false 1) = false ∧
          ∀ p ∈ [((5 : Slot), Ver.mk true 0)], p.1 = 5 →
            Ver.isC p.2 = true)) :=
  ⟨by decide,
    update_slot_list_addref_iff Ver.isC [(5, Ver.mk true 0)] 5
      (Ver.mk false 1) [] true [(5, Ver.mk false 1)] [] true
      (by decide)⟩

/-- C4: merging a pair whose slot is absent from the list appends it,
the length grows by exactly one, and the reclaim list is returned
unchanged (the returned addref is the initial not-cached value). -/
theorem update_slot_list_new_slot_append {T : Type} (isCached : T → Bool)
    (list : SlotList T) (slot : Slot) (info : T) (reclaims : SlotList T)
    (flag : Bool) (h : ∀ p ∈ list, p.1 ≠ slot) :
    update_slot_list isCached list slot info reclaims flag =
        some (list ++ [(slot, info)], reclaims, !isCached info) ∧
      (list ++ [(slot, info)]).length = list.length + 1 :=
  ⟨update_slot_list_of_slot_not_mem isCached list slot info reclaims
    flag h, by simp⟩

/-- Witness for C4 at a concrete input: slot 7 is absent from a
singleton list at slot 5, so the pair is appended. -/
theorem update_slot_list_new_slot_append_witness :
    (∀ p ∈ [((5 : Slot), Ver.mk false 0)], p.1 ≠ 7) ∧
      (update_slot_list Ver.isC [(5, Ver.mk false 0)] 7 (Ver.mk false 1)
          [] false =
          some ([(5, Ver.mk false 0), (7, Ver.mk false 1)], [],
            !Ver.isC (Ver.mk false 1)) ∧
        ([((5 : Slot), Ver.mk false 0)] ++
          [(7, Ver.mk false 1)]).length =
          [((5 : Slot), Ver.mk false 0)].length + 1) :=
  ⟨by decide,
    update_slot_list_new_slot_append Ver.isC [(5, Ver.mk false 0)] 7
      (Ver.mk false 1) [] false (by decide)⟩

example :
    update_slot_list Ver.isC [(5, ⟨true, 0⟩)] 5 ⟨false, 1⟩ [] true =
      some ([(5, ⟨false, 1⟩)], [], true) := by decide

example :
    update_slot_list Ver.isC [(5, ⟨false, 0⟩)] 7 ⟨false, 1⟩ [] false =
      some ([(5, ⟨false, 0⟩), (7, ⟨false, 1⟩)], [], true) := by decide

example :
    update_slot_list Ver.isC [(5, ⟨false, 0⟩)] 5 ⟨false, 1⟩ [] true =
      none := by decide

example :
    update_slot_list Ver.isC [(5, ⟨false, 0⟩)] 5 ⟨false, 1⟩ [] false =
      some ([(5, ⟨false, 1⟩)], [(5, ⟨false, 0⟩)], false) := by decide

/-- C2: when some existing entry carries the incoming slot (the list
splits as pre plus the matched pair plus post, with no match in pre),
the incoming pair replaces the matched entry in place; with the caller
flag asserted true, a non-cached displaced version is a fatal invariant
violation (abort) and on success nothing is pushed to the reclaim list;
with the flag false the displaced pair is pushed to the reclaim list. -/
theorem update_slot_list_replace_spec {T : Type} (isCached : T → Bool)
    (pre post : SlotList T) (slot : Slot) (prev info : T)
    (reclaims : SlotList T) (flag : Bool)
    (hpre : ∀ p ∈ pre, p.1 ≠ slot) :
    (flag = true → isCached prev = false →
        update_slot_list isCached (pre ++ (slot, prev) :: post) slot
          info reclaims flag = none) ∧
      ∀ l r a,
        update_slot_list isCached (pre ++ (slot, prev) :: post) slot
            info reclaims flag = some (l, r, a) →
        l = pre ++ (slot, info) :: post ∧
          (flag = true → r = reclaims) ∧
          (flag = false → r = reclaims ++ [(slot, prev)]) := by
  revert hpre
  induction pre with
  | nil =>
      intro _
      refine ⟨?_, ?_⟩
      · intro hf hpc
        rw [List.nil_append, update_slot_list_cons_self,
          if_pos (by simp [hf, hpc])]
      · intro l r a h
        rw [List.nil_append, update_slot_list_cons_self] at h
        by_cases h1 : (flag && !isCached prev) = true
        · rw [if_pos h1] at h
          exact absurd h (by simp)
        · rw [if_neg h1] at h
          by_cases h2 : (post.any fun item => item.1 == slot) = true
          · rw [if_pos h2] at h
            exact absurd h (by simp)
          · rw [if_neg h2] at h
            simp only [Option.some.injEq, Prod.mk.injEq] at h
            obtain ⟨hl, hr, ha⟩ := h
            refine ⟨?_, ?_, ?_⟩
            · rw [← hl, List.nil_append]
            · intro hf
              rw [← hr, if_pos hf]
            · intro hf
              rw [← hr, if_neg (by simp [hf])]
  | cons hd pre' ih =>
      intro hpre
      obtain ⟨s, v⟩ := hd
      have hs : s ≠ slot := hpre (s, v) (List.mem_cons_self _ _)
      have hpre' : ∀ p ∈ pre', p.1 ≠ slot := fun p hp =>
        hpre p (List.mem_cons_of_mem _ hp)
      obtain ⟨ih1, ih2⟩ := ih hpre'
      refine ⟨?_, ?_⟩
      · intro hf hpc
        rw [List.cons_append, update_slot_list_cons_ne isCached hs,
          ih1 hf hpc]
      · intro l r a h
        rw [List.cons_append, update_slot_list_cons_ne isCached hs] at h
        rcases hu : update_slot_list isCached
            (pre' ++ (slot, prev) :: post) slot info reclaims flag
          with _ | ⟨l0, r0, a0⟩
        · rw [hu] at h
          exact absurd h (by simp)
        · rw [hu] at h
          simp only [Option.some.injEq, Prod.mk.injEq] at h
          obtain ⟨hl, hr, ha⟩ := h
          obtain ⟨hl0, hr0, hrr⟩ := ih2 l0 r0 a0 hu
          refine ⟨?_, ?_, ?_⟩
          · rw [← hl, hl0, List.cons_append]
          · intro hf
            rw [← hr]
            exact hr0 hf
          · intro hf
            rw [← hr]
            exact hrr hf

/-- Witness for C2 at concrete inputs: with the flag true, replacing a
non-cached version aborts; with the flag false, the displaced pair is
pushed to the reclaim list. -/
theorem update_slot_list_replace_spec_witness :
    update_slot_list Ver.isC ([] ++ ((5 : Slot), Ver.mk false 0) :: [])
        5 (Ver.mk false 1) [] true = none ∧
      ([((5 : Slot), Ver.mk false 1)] =
          [] ++ ((5 : Slot), Ver.mk false 1) :: [] ∧
        (false = true →
          [((5 : Slot), Ver.mk false 0)] = ([] : SlotList Ver)) ∧
        (false = false →
          [((5 : Slot), Ver.mk false 0)] =
            [] ++ [((5 : Slot), Ver.mk false 0)])) :=
  ⟨(update_slot_list_replace_spec Ver.isC [] [] 5 (Ver.mk false 0)
      (Ver.mk false 1) [] true (by decide)).1 rfl (by decide),
    (update_slot_list_replace_spec Ver.isC [] [] 5 (Ver.mk false 0)
      (Ver.mk false 1) [] false (by decide)).2
      [(5, Ver.mk false 1)] [(5, Ver.mk false 0)] false (by decide)⟩

/-- C3: a slot list with at most one entry per slot (its slots are
nodup) keeps that invariant under any successful merge; and a list
holding two or more entries at the incoming slot makes the merge abort
(the post-swap scan, or the flag assert, is a fatal invariant
violation). -/
theorem update_slot_list_nodup_preserved {T : Type} (isCached : T → Bool)
    (list : SlotList T) (slot : Slot) (info : T) (reclaims : SlotList T)
    (flag : Bool) :
    (∀ l r a,
        (list.map Prod.fst).Nodup →
        update_slot_list isCached list slot info reclaims flag =
          some (l, r, a) →
        (l.map Prod.fst).Nodup) ∧
      (2 ≤ (list.filter fun p => p.1 == slot).length →
        update_slot_list isCached list slot info reclaims flag =
          none) := by
  constructor
  · induction list with
    | nil =>
        intro l r a _ h
        simp only [update_slot_list, Option.some.injEq,
          Prod.mk.injEq] at h
        rw [← h.1]
        simp
    | cons hd tl ih =>
        intro l r a hnd h
        obtain ⟨s, v⟩ := hd
        by_cases hs : s = slot
        · subst hs
          rw [update_slot_list_cons_self] at h
          by_cases h1 : (flag && !isCached v) = true
          · rw [if_pos h1] at h
            exact absurd h (by simp)
          · rw [if_neg h1] at h
            by_cases h2 : (tl.any fun item => item.1 == s) = true
            · rw [if_pos h2] at h
              exact absurd h (by simp)
            · rw [if_neg h2] at h
              simp only [Option.some.injEq, Prod.mk.injEq] at h
              rw [← h.1]
              simpa using hnd
        · rw [update_slot_list_cons_ne isCached hs] at h
          rcases hu : update_slot_list isCached tl slot info reclaims
              flag with _ | ⟨l0, r0, a0⟩
          · rw [hu] at h
            exact absurd h (by simp)
          · rw [hu] at h
            simp only [Option.some.injEq, Prod.mk.injEq] at h
            rw [← h.1]
            simp only [List.map_cons, List.nodup_cons] at hnd ⊢
            refine ⟨?_, ih l0 r0 a0 hnd.2 hu⟩
            intro hmem
            rcases update_slot_list_slot_mem isCached tl slot info
                reclaims flag l0 r0 a0 hu s (by simpa using hmem)
              with h' | h'
            · exact hs h'
            · exact hnd.1 (by simpa using h')
  · induction list with
    | nil =>
        intro h2
        simp at h2
    | cons hd tl ih =>
        intro hlen
        obtain ⟨s, v⟩ := hd
        by_cases hs : s = slot
        · subst hs
          rw [update_slot_list_cons_self]
          by_cases h1 : (flag && !isCached v) = true
          · rw [if_pos h1]
          · rw [if_neg h1]
            have hlen' :
                1 ≤ (tl.filter fun p => p.1 == s).length := by
              rw [List.filter_cons_of_pos (by simp)] at hlen
              simp only [List.length_cons] at hlen
              omega
            have hne : (tl.filter fun p => p.1 == s) ≠ [] := by
              intro hnil
              rw [hnil] at hlen'
              simp at hlen'
            obtain ⟨q, hq⟩ := List.exists_mem_of_ne_nil _ hne
            have hq' := List.mem_filter.mp hq
            rw [if_pos (List.any_eq_true.mpr ⟨q, hq'.1, hq'.2⟩)]
        · rw [update_slot_list_cons_ne isCached hs]
          have hrest : 2 ≤ (tl.filter fun p => p.1 == slot).length := by
            have hhd : ((s, v).1 == slot) = false := by simpa using hs
            rw [List.filter_cons_of_neg (by simpa using hs)] at hlen
            exact hlen
          rw [ih hrest]

/-- Witness for C3 at concrete inputs: a nodup list stays nodup after a
successful merge, and a list with a duplicated incoming slot aborts. -/
theorem update_slot_list_nodup_preserved_witness :
    ([((5 : Slot), Ver.mk false 0), (7, Ver.mk false 1)].map
        Prod.fst).Nodup ∧
      update_slot_list Ver.isC
        [(5, Ver.mk false 0), (5, Ver.mk false 1)] 5 (Ver.mk false 2)
        [] false = none :=
  ⟨(update_slot_list_nodup_preserved Ver.isC [(5, Ver.mk false 0)] 7
      (Ver.mk false 1) [] false).1
      [(5, Ver.mk false 0), (7, Ver.mk false 1)] [] true (by decide)
      (by decide),
    (update_slot_list_nodup_preserved Ver.isC
      [(5, Ver.mk false 0), (5, Ver.mk false 1)] 5 (Ver.mk false 2)
      [] false).2 (by decide)⟩

/-- Modelled from the spec: the reference-counted index entry
(AccountMapEntryInner lives in accounts_index.rs, outside the shown
sources).  Per the spec it owns one key's slot list and an atomic
reference count with an adjust capability. -/
structure AccountMapEntryInner (T : Type) where
  slot_list : SlotList T
  ref_count : Nat
deriving DecidableEq

/-- Modelled from the spec: the adjust-reference-count capability of an
index entry (add_un_ref, also outside the shown sources); the Bool
selects increment. -/
def add_un_ref {T : Type} (e : AccountMapEntryInner T)
    (increment : Bool) : AccountMapEntryInner T :=
  if increment then { e with ref_count := e.ref_count + 1 }
  else { e with ref_count := e.ref_count - 1 }

/-- The bin map backing store: an association list from account key to
index entry.  The Rust HashMap holds at most one binding per key; where
a proof needs that invariant it appears as a nodup hypothesis on the
keys. -/
abbrev BinMap (T : Type) := List (AccountKey × AccountMapEntryInner T)

/-- Lookup of the first binding for a key, as HashMap get. -/
def mapFind {T : Type} (m : BinMap T) (k : AccountKey) :
    Option (AccountMapEntryInner T) :=
  (m.find? (fun p => p.1 == k)).map Prod.snd

/-- Removal of the binding for a key, as the occupied-entry remove. -/
def mapErase {T : Type} (m : BinMap T) (k : AccountKey) : BinMap T :=
  m.eraseP (fun p => p.1 == k)

/-- In-place replacement of the entry bound to a key, modelling the
mutation of the shared entry handle held in the map. -/
def mapReplace {T : Type} (m : BinMap T) (k : AccountKey)
    (e : AccountMapEntryInner T) : BinMap T :=
  m.map (fun p => if p.1 == k then (p.1, e) else p)

/-- Embedding of remove_if_slot_list_empty from
in_mem_accounts_index.rs: when the key is present with an empty slot
list, the binding is removed and true is returned; otherwise the map is
left unchanged and false is returned. -/
def remove_if_slot_list_empty {T : Type} (map : BinMap T)
    (pubkey : AccountKey) : BinMap T × Bool :=
  match mapFind map pubkey with
  | some e =>
      if e.slot_list.isEmpty then (mapErase map pubkey, true)
      else (map, false)
  | none => (map, false)

/-- Embedding of insert_new_entry_if_missing_with_lock from
in_mem_accounts_index.rs.  On a vacant key the new entry is installed
and none is signalled (created new).  On an occupied key the map is not
mutated and the call returns the handle to the existing entry, the
first pending version drained from the new entry, and the key; draining
from an empty pending list is a panic (Vec remove at index 0 out of
range), modelled as the outer none. -/
def insert_new_entry_if_missing_with_lock {T : Type} (map : BinMap T)
    (pubkey : AccountKey) (new_entry : AccountMapEntryInner T) :
    Option (BinMap T ×
      Option (AccountMapEntryInner T × T × AccountKey)) :=
  match mapFind map pubkey with
  | some existing =>
      match new_entry.slot_list with
      | [] => none
      | (_, v) :: _ => some (map, some (existing, v, pubkey))
  | none => some (map ++ [(pubkey, new_entry)], none)

/-- Embedding of lock_and_update_slot_list from
in_mem_accounts_index.rs: drains the single pending pair from the new
value (a panic, hence none, if its pending list is empty), merges it
into the current entry's slot list via update_slot_list, and invokes
the entry's adjust-reference-count capability with increment when the
merge requests addref.  Returns the updated current entry and the
reclaim list. -/
def lock_and_update_slot_list {T : Type} (isCached : T → Bool)
    (current : AccountMapEntryInner T)
    (new_value : AccountMapEntryInner T) (reclaims : SlotList T)
    (previous_slot_entry_was_cached : Bool) :
    Option (AccountMapEntryInner T × SlotList T) :=
  match new_value.slot_list with
  | [] => none
  | (slot, new_entry) :: _ =>
      match update_slot_list isCached current.slot_list slot new_entry
          reclaims previous_slot_entry_was_cached with
      | none => none
      | some (l, r, addref) =>
          let current1 := { current with slot_list := l }
          some (if addref then add_un_ref current1 true else current1, r)

/-- Embedding of upsert from in_mem_accounts_index.rs: on an occupied
key it delegates to lock_and_update_slot_list against the existing
entry (the shared handle is mutated in place, modelled by replacing the
binding); on a vacant key it installs the new value directly. -/
def upsert {T : Type} (isCached : T → Bool) (map : BinMap T)
    (pubkey : AccountKey) (new_value : AccountMapEntryInner T)
    (reclaims : SlotList T) (previous_slot_entry_was_cached : Bool) :
    Option (BinMap T × SlotList T) :=
  match mapFind map pubkey with
  | some current =>
      match lock_and_update_slot_list isCached current new_value
          reclaims previous_slot_entry_was_cached with
      | none => none
      | some (current1, r) => some (mapReplace map pubkey current1, r)
  | none => some (map ++ [(pubkey, new_value)], reclaims)

/-- The statistics counters and timers of the backing store touched by
the bin lookups (the BucketMapHolderStats fields used by get and
entry). -/
structure BucketMapHolderStats where
  gets_from_mem : Nat
  get_mem_us : Nat
  gets_missing : Nat
  get_missing_us : Nat
deriving DecidableEq

/-- Embedding of update_stat: a zero-valued update is skipped. -/
def update_stat (stat value : Nat) : Nat :=
  if value ≠ 0 then stat + value else stat

/-- One bin together with the shared stats block it records into. -/
structure BinState (T : Type) where
  map : BinMap T
  stats : BucketMapHolderStats

/-- Embedding of get from in_mem_accounts_index.rs: a cloned lookup of
the entry handle plus the hit or miss counter and timer side effect on
the stats; the measured elapsed microseconds are an explicit
parameter (the Measure clock is external). -/
def get {T : Type} (st : BinState T) (key : AccountKey)
    (elapsed_us : Nat) :
    Option (AccountMapEntryInner T) × BinState T :=
  let result := mapFind st.map key
  let stats := st.stats
  let stats1 :=
    if result.isSome then
      { stats with
          gets_from_mem := update_stat stats.gets_from_mem 1,
          get_mem_us := update_stat stats.get_mem_us elapsed_us }
    else
      { stats with
          gets_missing := update_stat stats.gets_missing 1,
          get_missing_us := update_stat stats.get_missing_us
            elapsed_us }
  (result, { st with stats := stats1 })

/-- Embedding of entry from in_mem_accounts_index.rs: returns the
occupied-or-vacant cursor for the key, modelled as the lookup result;
it does not itself mutate the map and records the same hit or miss
stats as get. -/
def entry {T : Type} (st : BinState T) (key : AccountKey)
    (elapsed_us : Nat) :
    Option (AccountMapEntryInner T) × BinState T :=
  let result := mapFind st.map key
  let stats := st.stats
  let stats1 :=
    if result.isSome then
      { stats with
          gets_from_mem := update_stat stats.gets_from_mem 1,
          get_mem_us := update_stat stats.get_mem_us elapsed_us }
    else
      { stats with
          gets_missing := update_stat stats.gets_missing 1,
          get_missing_us := update_stat stats.get_missing_us
            elapsed_us }
  (result, { st with stats := stats1 })

/-- Helper: a lookup misses exactly when no binding carries the key. -/
theorem mapFind_eq_none_iff {T : Type} (m : BinMap T) (k : AccountKey) :
    mapFind m k = none ↔ ∀ p ∈ m, p.1 ≠ k := by
  simp [mapFind, List.find?_eq_none]

/-- Helper: appending a binding for a previously absent key makes the
lookup return exactly that binding. -/
theorem mapFind_append_right {T : Type} (m : BinMap T) (k : AccountKey)
    (e : AccountMapEntryInner T) (h : mapFind m k = none) :
    mapFind (m ++ [(k, e)]) k = some e := by
  induction m with
  | nil => simp [mapFind, List.find?]
  | cons hd tl ih =>
      have h' := (mapFind_eq_none_iff (hd :: tl) k).mp h
      have hhd : (hd.1 == k) = false := by
        simpa using h' hd (List.mem_cons_self _ _)
      have htl : mapFind tl k = none :=
        (mapFind_eq_none_iff tl k).mpr fun p hp =>
          h' p (List.mem_cons_of_mem _ hp)
      have := ih htl
      simp only [mapFind, List.cons_append, List.find?, hhd] at this ⊢
      exact this

/-- Helper: erasing a key from a map whose keys are nodup (the HashMap
invariant) makes the lookup for that key miss. -/
theorem mapFind_mapErase_self {T : Type} (m : BinMap T)
    (k : AccountKey) (hnd : (m.map Prod.fst).Nodup) :
    mapFind (mapErase m k) k = none := by
  induction m with
  | nil => rfl
  | cons hd tl ih =>
      simp only [List.map_cons, List.nodup_cons] at hnd
      by_cases hk : (hd.1 == k) = true
      · have hk' : hd.1 = k := by simpa using hk
        rw [mapErase, List.eraseP_cons, hk]
        simp only [cond_true]
        rw [mapFind_eq_none_iff]
        intro p hp hpk
        exact hnd.1 (by
          rw [← hk'] at hpk
          rw [← hpk]
          exact List.mem_map_of_mem Prod.fst hp)
      · have hk' : (hd.1 == k) = false := by
          simpa using hk
        rw [mapErase, List.eraseP_cons, hk']
        simp only [cond_false]
        simp only [mapFind, List.find?, hk']
        exact ih hnd.2

/-- C6: remove_if_slot_list_empty succeeds exactly when the key is
present with an empty slot list; on success the key is absent from the
resulting map; on failure (absent key, or present with a nonempty slot
list) the map, and hence every slot list in it, is unchanged.  The
nodup hypothesis is the HashMap one-binding-per-key invariant. -/
theorem remove_if_slot_list_empty_spec {T : Type} (map : BinMap T)
    (pubkey : AccountKey) (hnd : (map.map Prod.fst).Nodup) :
    ((remove_if_slot_list_empty map pubkey).2 = true ↔
        ∃ e, mapFind map pubkey = some e ∧ e.slot_list = []) ∧
      ((remove_if_slot_list_empty map pubkey).2 = true →
        mapFind (remove_if_slot_list_empty map pubkey).1 pubkey =
          none) ∧
      ((remove_if_slot_list_empty map pubkey).2 = false →
        (remove_if_slot_list_empty map pubkey).1 = map) := by
  rcases hf : mapFind map pubkey with _ | e
  · refine ⟨?_, ?_, ?_⟩ <;> simp [remove_if_slot_list_empty, hf]
  · by_cases he : e.slot_list.isEmpty = true
    · have he' : e.slot_list = [] := by
        simpa [List.isEmpty_iff] using he
      refine ⟨?_, ?_, ?_⟩
      · simp [remove_if_slot_list_empty, hf, he, he']
      · intro _
        simp only [remove_if_slot_list_empty, hf, he, if_true]
        exact mapFind_mapErase_self map pubkey hnd
      · intro hfalse
        simp [remove_if_slot_list_empty, hf, he] at hfalse
    · have he' : e.slot_list ≠ [] := by
        simpa [List.isEmpty_iff] using he
      refine ⟨?_, ?_, ?_⟩ <;>
        simp [remove_if_slot_list_empty, hf, he, he']

/-- Witness for C6 at a concrete input: a singleton map whose only
entry has an empty slot list. -/
theorem remove_if_slot_list_empty_spec_witness :
    (((remove_if_slot_list_empty
            [((1 : AccountKey),
              AccountMapEntryInner.mk ([] : SlotList Ver) 0)] 1).2 =
          true ↔
        ∃ e,
          mapFind [((1 : AccountKey),
              AccountMapEntryInner.mk ([] : SlotList Ver) 0)] 1 =
            some e ∧ e.slot_list = []) ∧
      ((remove_if_slot_list_empty
            [((1 : AccountKey),
              AccountMapEntryInner.mk ([] : SlotList Ver) 0)] 1).2 =
          true →
        mapFind (remove_if_slot_list_empty
            [((1 : AccountKey),
              AccountMapEntryInner.mk ([] : SlotList Ver) 0)] 1).1 1 =
          none) ∧
      ((remove_if_slot_list_empty
            [((1 : AccountKey),
              AccountMapEntryInner.mk ([] : SlotList Ver) 0)] 1).2 =
          false →
        (remove_if_slot_list_empty
            [((1 : AccountKey),
              AccountMapEntryInner.mk ([] : SlotList Ver) 0)] 1).1 =
          [((1 : AccountKey),
            AccountMapEntryInner.mk ([] : SlotList Ver) 0)])) :=
  remove_if_slot_list_empty_spec
    [((1 : AccountKey), AccountMapEntryInner.mk ([] : SlotList Ver) 0)]
    1 (by decide)

/-- C5: two-phase insert.  On a vacant key the new entry is installed
as the binding for the key and created-new is signalled (the inner
option is none).  On an occupied key the map is left untouched and the
call returns the handle to the existing entry, the pending version
extracted from the new entry, and the key. -/
theorem insert_new_entry_two_phase {T : Type} (map : BinMap T)
    (pubkey : AccountKey) (new_entry : AccountMapEntryInner T) :
    (mapFind map pubkey = none →
        insert_new_entry_if_missing_with_lock map pubkey new_entry =
            some (map ++ [(pubkey, new_entry)], none) ∧
          mapFind (map ++ [(pubkey, new_entry)]) pubkey =
            some new_entry) ∧
      ∀ existing s v rest,
        mapFind map pubkey = some existing →
        new_entry.slot_list = (s, v) :: rest →
        insert_new_entry_if_missing_with_lock map pubkey new_entry =
          some (map, some (existing, v, pubkey)) := by
  constructor
  · intro h
    exact ⟨by simp [insert_new_entry_if_missing_with_lock, h],
      mapFind_append_right map pubkey new_entry h⟩
  · intro existing s v rest hf hsl
    simp [insert_new_entry_if_missing_with_lock, hf, hsl]

/-- Witness for C5 at concrete inputs: an insert into the empty map
installs the entry; an insert over an occupied key returns the existing
handle, the drained pending version, and the key. -/
theorem insert_new_entry_two_phase_witness :
    (insert_new_entry_if_missing_with_lock ([] : BinMap Ver) 1
          (AccountMapEntryInner.mk [(5, Ver.mk false 0)] 0) =
        some ([] ++ [(1,
            AccountMapEntryInner.mk [(5, Ver.mk false 0)] 0)],
          none) ∧
      mapFind ([] ++ [((1 : AccountKey),
          AccountMapEntryInner.mk [(5, Ver.mk false 0)] 0)]) 1 =
        some (AccountMapEntryInner.mk [(5, Ver.mk false 0)] 0)) ∧
      insert_new_entry_if_missing_with_lock
          [((1 : AccountKey),
            AccountMapEntryInner.mk ([] : SlotList Ver) 7)] 1
          (AccountMapEntryInner.mk [(5, Ver.mk false 0)] 0) =
        some ([(1, AccountMapEntryInner.mk ([] : SlotList Ver) 7)],
          some (AccountMapEntryInner.mk ([] : SlotList Ver) 7,
            Ver.mk false 0, 1)) :=
  ⟨(insert_new_entry_two_phase ([] : BinMap Ver) 1
      (AccountMapEntryInner.mk [(5, Ver.mk false 0)] 0)).1 (by decide),
    (insert_new_entry_two_phase
      [((1 : AccountKey),
        AccountMapEntryInner.mk ([] : SlotList Ver) 7)] 1
      (AccountMapEntryInner.mk [(5, Ver.mk false 0)] 0)).2
      (AccountMapEntryInner.mk ([] : SlotList Ver) 7) 5 (Ver.mk false 0)
      [] (by decide) (by decide)⟩

/-- Counterexample to C7 as stated: a new entry carrying two pending
pairs (hence not exactly one) does not make the draining operations
fail fatally; lock_and_update_slot_list, upsert on an occupied key, and
insert_new_entry_if_missing_with_lock on an occupied key all succeed,
silently draining only the first pair. -/
theorem drain_two_pending_no_abort :
    (AccountMapEntryInner.mk
          [(1, Ver.mk false 0), (2, Ver.mk false 1)] 0).slot_list.length
        ≠ 1 ∧
      lock_and_update_slot_list Ver.isC
          (AccountMapEntryInner.mk ([] : SlotList Ver) 0)
          (AccountMapEntryInner.mk
            [(1, Ver.mk false 0), (2, Ver.mk false 1)] 0) [] false ≠
        none ∧
      upsert Ver.isC
          [(7, AccountMapEntryInner.mk ([] : SlotList Ver) 0)] 7
          (AccountMapEntryInner.mk
            [(1, Ver.mk false 0), (2, Ver.mk false 1)] 0) [] false ≠
        none ∧
      insert_new_entry_if_missing_with_lock
          [(7, AccountMapEntryInner.mk ([] : SlotList Ver) 0)] 7
          (AccountMapEntryInner.mk
            [(1, Ver.mk false 0), (2, Ver.mk false 1)] 0) ≠
        none := by decide

/-- C7 amended: the draining operations detect only the empty violation
of the exactly-one-pending precondition: with an empty pending slot
list, lock_and_update_slot_list, upsert on an occupied key, and
insert_new_entry_if_missing_with_lock on an occupied key all fail
fatally (the Vec remove of index 0 panics). -/
theorem drain_empty_pending_fatal {T : Type} (isCached : T → Bool)
    (map : BinMap T) (pubkey : AccountKey)
    (current new_entry : AccountMapEntryInner T) (reclaims : SlotList T)
    (flag : Bool) (hempty : new_entry.slot_list = [])
    (hocc : mapFind map pubkey = some current) :
    lock_and_update_slot_list isCached current new_entry reclaims flag =
        none ∧
      upsert isCached map pubkey new_entry reclaims flag = none ∧
      insert_new_entry_if_missing_with_lock map pubkey new_entry =
        none := by
  refine ⟨?_, ?_, ?_⟩
  · simp [lock_and_update_slot_list, hempty]
  · simp [upsert, hocc, lock_and_update_slot_list, hempty]
  · simp [insert_new_entry_if_missing_with_lock, hocc, hempty]

/-- Witness for the amended C7 at a concrete input: an occupied key and
a new entry with no pending pair. -/
theorem drain_empty_pending_fatal_witness :
    (AccountMapEntryInner.mk ([] : SlotList Ver) 0).slot_list = [] ∧
      mapFind [((7 : AccountKey),
          AccountMapEntryInner.mk [(3, Ver.mk false 9)] 1)] 7 =
        some (AccountMapEntryInner.mk [(3, Ver.mk false 9)] 1) ∧
      (lock_and_update_slot_list Ver.isC
          (AccountMapEntryInner.mk [(3, Ver.mk false 9)] 1)
          (AccountMapEntryInner.mk ([] : SlotList Ver) 0) [] false =
          none ∧
        upsert Ver.isC [((7 : AccountKey),
            AccountMapEntryInner.mk [(3, Ver.mk false 9)] 1)] 7
          (AccountMapEntryInner.mk ([] : SlotList Ver) 0) [] false =
          none ∧
        insert_new_entry_if_missing_with_lock [((7 : AccountKey),
            AccountMapEntryInner.mk [(3, Ver.mk false 9)] 1)] 7
          (AccountMapEntryInner.mk ([] : SlotList Ver) 0) = none) :=
  ⟨rfl, by decide,
    drain_empty_pending_fatal Ver.isC
      [((7 : AccountKey),
        AccountMapEntryInner.mk [(3, Ver.mk false 9)] 1)] 7
      (AccountMapEntryInner.mk [(3, Ver.mk false 9)] 1)
      (AccountMapEntryInner.mk ([] : SlotList Ver) 0) [] false rfl
      (by decide)⟩

/-- C10: an upsert on a vacant key installs the supplied new value
as-is (its reference count in particular is untouched, so the
adjust-reference-count capability is never invoked) and returns the
reclaim list unchanged, whatever the cached state of its pending
version. -/
theorem upsert_vacant_installs_as_is {T : Type} (isCached : T → Bool)
    (map : BinMap T) (pubkey : AccountKey)
    (new_value : AccountMapEntryInner T) (reclaims : SlotList T)
    (flag : Bool) (h : mapFind map pubkey = none) :
    upsert isCached map pubkey new_value reclaims flag =
      some (map ++ [(pubkey, new_value)], reclaims) := by
  simp [upsert, h]

/-- Witness for C10 at a concrete input: the vacant-key upsert of an
entry whose single pending version is non-cached. -/
theorem upsert_vacant_installs_as_is_witness :
    upsert Ver.isC ([] : BinMap Ver) 1
        (AccountMapEntryInner.mk [(5, Ver.mk false 0)] 0) [] false =
      some ([] ++ [(1, AccountMapEntryInner.mk [(5, Ver.mk false 0)] 0)],
        []) :=
  upsert_vacant_installs_as_is Ver.isC ([] : BinMap Ver) 1
    (AccountMapEntryInner.mk [(5, Ver.mk false 0)] 0) [] false
    (by decide)

/-- C8: get and entry never change the map, hence neither the key set
nor any key's slot list; the returned state differs from the input only
in the stats block; and two consecutive gets of the same key with no
intervening mutation return equal results. -/
theorem get_entry_read_purity {T : Type} (st : BinState T)
    (key : AccountKey) (e1 e2 : Nat) :
    (get st key e1).2.map = st.map ∧
      (entry st key e1).2.map = st.map ∧
      (get st key e1).2 = { st with stats := (get st key e1).2.stats } ∧
      (entry st key e1).2 =
        { st with stats := (entry st key e1).2.stats } ∧
      (get ((get st key e1).2) key e2).1 = (get st key e1).1 :=
  ⟨rfl, rfl, rfl, rfl, rfl⟩
